import Mathlib

/-!
Shallow embedding of the cloud_storage storage engine.

Source of truth: src/src (chunk/mod.rs, storage/disk.rs, storage/cache.rs,
storage/compression.rs, storage/retry.rs, types/*.rs) and
src/storage_engine/src/crypto/encryption.rs.

Modelling conventions:
  * bytes are `List Nat`;
  * v4 UUIDs are naturals drawn from a monotone counter carried in the
    state (fresh UUIDs never collide with previously generated ones);
  * the on-disk directories and the in-memory LRU cache are association
    lists inside an explicit `StorageState` threaded through operations;
  * external crates (flate2's gzip codec, aes_gcm, sha2, the `infer`
    magic-byte sniffer, the wall clock) are opaque parameters gathered in
    an `Ext` record; their contractual properties (round-trips) are taken
    as named hypotheses where a claim needs them;
  * fallible Rust code returning `Result` becomes `Except StorageError`;
    host I/O faults (disk full, permission errors) are out of scope: reads
    and writes of files that exist succeed.
-/

namespace CloudStorage

abbrev Bytes := List Nat

abbrev Uuid := Nat

/-- `StorageError` from src/src/error.rs: Io wraps a filesystem error,
NotFound carries the missing identifier, Storage is the engine-level
catch-all (parse failure, codec failure). -/
inductive StorageError where
  | Io (msg : String)
  | NotFound (what : String)
  | Storage (msg : String)
deriving DecidableEq

deriving instance DecidableEq for Except

/-- `ImageType` from src/src/types/file.rs. -/
inductive ImageType where
  | Jpeg | Png | Gif | Webp
  | Other (mime : String)
deriving DecidableEq

/-- `DocumentType` from src/src/types/file.rs. -/
inductive DocumentType where
  | Pdf | Doc | Docx
  | Other (mime : String)
deriving DecidableEq

/-- `VideoType` from src/src/types/file.rs. -/
inductive VideoType where
  | Mp4 | Mkv | Avi
  | Other (mime : String)
deriving DecidableEq

/-- `AudioType` from src/src/types/file.rs. -/
inductive AudioType where
  | Mp3 | Wav | Flac
  | Other (mime : String)
deriving DecidableEq

/-- `FileType` from src/src/types/file.rs. -/
inductive FileType where
  | Image (t : ImageType)
  | Document (t : DocumentType)
  | Video (t : VideoType)
  | Audio (t : AudioType)
  | Unknown
deriving DecidableEq

/-- `ChunkId(pub Uuid)` from src/src/types/chunk.rs. -/
structure ChunkId where
  val : Uuid
deriving DecidableEq

/-- `Chunk` from src/src/types/chunk.rs. -/
structure Chunk where
  id : ChunkId
  data : Bytes
  checksum : String
  size : Nat
deriving DecidableEq

/-- `FileMetadata` from src/src/types/metadata.rs (the two
`DateTime<Utc>` stamps are abstract ticks). -/
structure FileMetadata where
  id : Uuid
  name : String
  size : Nat
  created_at : Nat
  modified_at : Nat
  checksum : String
  file_type : FileType
  chunk_ids : List ChunkId
deriving DecidableEq

/-- The external crates the engine links against, kept opaque:
gzip encode/decode (flate2), AES-256-GCM seal/open (aes_gcm, taking key,
nonce, payload), SHA-256 hex digests (sha2), MIME sniffing over magic
bytes (infer), and the wall clock (chrono's Utc::now as a tick). -/
structure Ext where
  gzipCompress : Bytes → Except StorageError Bytes
  gzipDecompress : Bytes → Except StorageError Bytes
  aesGcmEncrypt : Bytes → Bytes → Bytes → Except StorageError Bytes
  aesGcmDecrypt : Bytes → Bytes → Bytes → Except StorageError Bytes
  sha256Hex : Bytes → String
  inferMime : Bytes → Option String
  now : Nat

/-- gzip decode inverts gzip encode (flate2 contract, spec section 4.3). -/
def GzipRoundTrip (E : Ext) : Prop :=
  ∀ x y, E.gzipCompress x = .ok y → E.gzipDecompress y = .ok x

/-- AES-GCM open inverts AES-GCM seal under the same key and nonce
(aes_gcm contract, spec section 4.4). -/
def AesRoundTrip (E : Ext) : Prop :=
  ∀ k n x y, E.aesGcmEncrypt k n x = .ok y → E.aesGcmDecrypt k n y = .ok x

/-- gzip encoding of in-memory data never fails. -/
def CompressTotal (E : Ext) : Prop :=
  ∀ x, ∃ y, E.gzipCompress x = .ok y

/-- AES-GCM sealing never fails. -/
def EncryptTotal (E : Ext) : Prop :=
  ∀ k n x, ∃ y, E.aesGcmEncrypt k n x = .ok y

/-- `FileTypeDetector::detect` from src/src/types/file.rs: resolve the
sniffed MIME through the closed literal mapping, then the family
fallbacks in source order, else Unknown. -/
def FileTypeDetector.detect (E : Ext) (data : Bytes) : FileType :=
  match E.inferMime data with
  | some mime =>
    if mime = "image/jpeg" then .Image .Jpeg
    else if mime = "image/png" then .Image .Png
    else if mime = "image/gif" then .Image .Gif
    else if mime = "image/webp" then .Image .Webp
    else if mime = "application/pdf" then .Document .Pdf
    else if mime = "application/msword" then .Document .Doc
    else if mime = "application/vnd.openxmlformats-officedocument.wordprocessingml.document"
      then .Document .Docx
    else if mime = "video/mp4" then .Video .Mp4
    else if mime = "video/x-matroska" then .Video .Mkv
    else if mime = "video/x-msvideo" then .Video .Avi
    else if mime = "audio/mpeg" then .Audio .Mp3
    else if mime = "audio/wav" then .Audio .Wav
    else if mime = "audio/flac" then .Audio .Flac
    else if mime.startsWith "image/" then .Image (.Other mime)
    else if mime.startsWith "video/" then .Video (.Other mime)
    else if mime.startsWith "audio/" then .Audio (.Other mime)
    else if mime.startsWith "application/" then .Document (.Other mime)
    else .Unknown
  | none => .Unknown

/-- `DEFAULT_CHUNK_SIZE` from src/src/chunk/mod.rs. -/
def DEFAULT_CHUNK_SIZE : Nat := 1024 * 1024

theorem default_chunk_size_pos : 0 < DEFAULT_CHUNK_SIZE := by
  simp [DEFAULT_CHUNK_SIZE]

/-- `FileChunker::chunk_data` from src/src/chunk/mod.rs: walk the input
in non-overlapping windows of at most `chunkSize` bytes, emitting per
window a Chunk with a freshly allocated id, the window bytes, their
SHA-256 hex checksum and the window length.  The Rust loop requires a
positive chunk size to make progress, hence the `hpos` argument; the id
counter is threaded and returned. -/
def chunk_data (E : Ext) (chunkSize : Nat) (hpos : 0 < chunkSize)
    (ctr : Nat) (data : Bytes) : List Chunk × Nat :=
  if hemp : data = [] then ([], ctr)
  else
    let w := data.take chunkSize
    let rest := chunk_data E chunkSize hpos (ctr + 1) (data.drop chunkSize)
    (⟨⟨ctr⟩, w, E.sha256Hex w, w.length⟩ :: rest.1, rest.2)
termination_by data.length
decreasing_by
  simp only [List.length_drop]
  have hp := List.length_pos.mpr hemp
  omega

theorem chunk_data_nil (E : Ext) (cs : Nat) (h : 0 < cs) (ctr : Nat) :
    chunk_data E cs h ctr [] = ([], ctr) := by
  rw [chunk_data]
  simp

theorem chunk_data_cons (E : Ext) (cs : Nat) (h : 0 < cs) (ctr : Nat)
    (data : Bytes) (hne : data ≠ []) :
    chunk_data E cs h ctr data =
      (⟨⟨ctr⟩, data.take cs, E.sha256Hex (data.take cs),
          (data.take cs).length⟩ ::
          (chunk_data E cs h (ctr + 1) (data.drop cs)).1,
        (chunk_data E cs h (ctr + 1) (data.drop cs)).2) := by
  rw [chunk_data]
  simp [hne]

/-- Evaluation shape for inputs that fit in a single window. -/
theorem chunk_data_single (E : Ext) (cs : Nat) (h : 0 < cs) (ctr : Nat)
    (data : Bytes) (hne : data ≠ []) (hlen : data.length ≤ cs) :
    chunk_data E cs h ctr data =
      ([⟨⟨ctr⟩, data, E.sha256Hex data, data.length⟩], ctr + 1) := by
  rw [chunk_data_cons E cs h ctr data hne]
  rw [List.take_of_length_le hlen, List.drop_eq_nil_of_le hlen,
    chunk_data_nil]

/-- The chunk windows concatenate, in order, to exactly the input. -/
theorem chunk_data_join (E : Ext) (cs : Nat) (h : 0 < cs) :
    ∀ n data ctr, data.length ≤ n →
      ((chunk_data E cs h ctr data).1.map Chunk.data).flatten = data := by
  intro n
  induction n with
  | zero =>
    intro data ctr hn
    have : data = [] := List.eq_nil_of_length_eq_zero (Nat.le_zero.mp hn)
    subst this
    simp [chunk_data_nil]
  | succ m ih =>
    intro data ctr hn
    by_cases hemp : data = []
    · subst hemp
      simp [chunk_data_nil]
    · rw [chunk_data_cons E cs h ctr data hemp]
      have hlen : (data.drop cs).length ≤ m := by
        have hp := List.length_pos.mpr hemp
        simp only [List.length_drop]
        omega
      simp only [List.map_cons, List.flatten_cons, ih (data.drop cs) (ctr + 1) hlen]
      exact List.take_append_drop cs data

/-- Every emitted chunk records its own window length as `size`, and the
window never exceeds the configured chunk size. -/
theorem chunk_data_sizes (E : Ext) (cs : Nat) (h : 0 < cs) :
    ∀ n data ctr, data.length ≤ n →
      ∀ c ∈ (chunk_data E cs h ctr data).1,
        c.size = c.data.length ∧ c.size ≤ cs := by
  intro n
  induction n with
  | zero =>
    intro data ctr hn
    have : data = [] := List.eq_nil_of_length_eq_zero (Nat.le_zero.mp hn)
    subst this
    simp [chunk_data_nil]
  | succ m ih =>
    intro data ctr hn c hc
    by_cases hemp : data = []
    · subst hemp
      simp [chunk_data_nil] at hc
    · rw [chunk_data_cons E cs h ctr data hemp] at hc
      rcases List.mem_cons.mp hc with rfl | htail
      · refine ⟨rfl, ?_⟩
        simp only [List.length_take]
        omega
      · have hlen : (data.drop cs).length ≤ m := by
          have hp := List.length_pos.mpr hemp
          simp only [List.length_drop]
          omega
        exact ih (data.drop cs) (ctr + 1) hlen c htail

/-- The chunk ids are exactly the counter values
`ctr, ctr+1, …`, in order, and the returned counter is the next free
one; so ids from a single chunking run are distinct and lie in
`[ctr, ctr + number of chunks)`. -/
theorem chunk_data_ids (E : Ext) (cs : Nat) (h : 0 < cs) :
    ∀ n data ctr, data.length ≤ n →
      ((chunk_data E cs h ctr data).1.map (fun c => c.id.val) =
          List.range' ctr (chunk_data E cs h ctr data).1.length) ∧
        (chunk_data E cs h ctr data).2 =
          ctr + (chunk_data E cs h ctr data).1.length := by
  intro n
  induction n with
  | zero =>
    intro data ctr hn
    have : data = [] := List.eq_nil_of_length_eq_zero (Nat.le_zero.mp hn)
    subst this
    simp [chunk_data_nil]
  | succ m ih =>
    intro data ctr hn
    by_cases hemp : data = []
    · subst hemp
      simp [chunk_data_nil]
    · rw [chunk_data_cons E cs h ctr data hemp]
      have hlen : (data.drop cs).length ≤ m := by
        have hp := List.length_pos.mpr hemp
        simp only [List.length_drop]
        omega
      obtain ⟨ih1, ih2⟩ := ih (data.drop cs) (ctr + 1) hlen
      constructor
      · simp only [List.map_cons, List.length_cons, ih1, List.range'_succ]
      · simp only [List.length_cons, ih2]
        omega

/-- The number of chunks is `⌈|data| / chunkSize⌉` (0 for empty input). -/
theorem chunk_data_count (E : Ext) (cs : Nat) (h : 0 < cs) :
    ∀ n data ctr, data.length ≤ n →
      (chunk_data E cs h ctr data).1.length = (data.length + cs - 1) / cs := by
  intro n
  induction n with
  | zero =>
    intro data ctr hn
    have : data = [] := List.eq_nil_of_length_eq_zero (Nat.le_zero.mp hn)
    subst this
    rw [chunk_data_nil]
    have hz : (cs - 1) / cs = 0 := Nat.div_eq_of_lt (by omega)
    simp [hz]
  | succ m ih =>
    intro data ctr hn
    by_cases hemp : data = []
    · subst hemp
      rw [chunk_data_nil]
      have hz : (cs - 1) / cs = 0 := Nat.div_eq_of_lt (by omega)
      simp [hz]
    · rw [chunk_data_cons E cs h ctr data hemp]
      have hp := List.length_pos.mpr hemp
      have hlen : (data.drop cs).length ≤ m := by
        simp only [List.length_drop]
        omega
      simp only [List.length_cons, ih (data.drop cs) (ctr + 1) hlen,
        List.length_drop]
      have hstep : (data.length + cs - 1) / cs =
          (data.length + cs - 1 - cs) / cs + 1 :=
        Nat.div_eq_sub_div h (by omega)
      by_cases hbig : cs ≤ data.length
      · have e1 : data.length - cs + cs - 1 = data.length + cs - 1 - cs := by
          omega
        rw [e1]
        omega
      · have e1 : data.length - cs + cs - 1 = cs - 1 := by omega
        rw [e1]
        have h2 : (cs - 1) / cs = 0 := Nat.div_eq_of_lt (by omega)
        have e3 : data.length + cs - 1 - cs = data.length - 1 := by omega
        rw [e3] at hstep
        have h4 : (data.length - 1) / cs = 0 := Nat.div_eq_of_lt (by omega)
        omega

/-- `CompressionManager` from src/src/storage/compression.rs. -/
structure CompressionManager where
  enabled : Bool
deriving DecidableEq

/-- `CompressionManager::compress`: identity when disabled, gzip encode
when enabled. -/
def CompressionManager.compress (cm : CompressionManager) (E : Ext)
    (data : Bytes) : Except StorageError Bytes :=
  if !cm.enabled then .ok data
  else E.gzipCompress data

/-- `CompressionManager::decompress`: identity when disabled, gzip
decode when enabled. -/
def CompressionManager.decompress (cm : CompressionManager) (E : Ext)
    (data : Bytes) : Except StorageError Bytes :=
  if !cm.enabled then .ok data
  else E.gzipDecompress data

/-- `EncryptionConfig` from src/storage_engine/src/crypto/encryption.rs. -/
structure EncryptionConfig where
  key : Bytes
  enabled : Bool
deriving DecidableEq

/-- `EncryptionConfig::new` always enables the stage. -/
def EncryptionConfig.new (key : Bytes) : EncryptionConfig :=
  ⟨key, true⟩

/-- The fixed 96-bit nonce b"somedumbshit" hard-coded in
src/storage_engine/src/crypto/encryption.rs. -/
def fixed_nonce : Bytes :=
  [115, 111, 109, 101, 100, 117, 109, 98, 115, 104, 105, 116]

/-- `EncryptionConfig::encrypt`: AES-256-GCM under the configured key
and the fixed nonce; identity when disabled. -/
def EncryptionConfig.encrypt (ec : EncryptionConfig) (E : Ext)
    (data : Bytes) : Except StorageError Bytes :=
  if !ec.enabled then .ok data
  else E.aesGcmEncrypt ec.key fixed_nonce data

/-- `EncryptionConfig::decrypt`: AES-256-GCM open under the configured
key and the fixed nonce; identity when disabled. -/
def EncryptionConfig.decrypt (ec : EncryptionConfig) (E : Ext)
    (data : Bytes) : Except StorageError Bytes :=
  if !ec.enabled then .ok data
  else E.aesGcmDecrypt ec.key fixed_nonce data

/-- `lru::LruCache::put` semantics for the cache of
src/src/storage/cache.rs: most-recently-used entry first; inserting an
existing key refreshes its value and recency, inserting a new key past
capacity evicts the least-recently-used entry. -/
def lru_put (cap : Nat) (c : List (Uuid × Bytes)) (id : Uuid) (v : Bytes) :
    List (Uuid × Bytes) :=
  let c1 := (id, v) :: c.filter (fun p => p.1 != id)
  if cap < c1.length then c1.dropLast else c1

/-- `CacheManager::invalidate` (`LruCache::pop`). -/
def cache_invalidate (c : List (Uuid × Bytes)) (id : Uuid) :
    List (Uuid × Bytes) :=
  c.filter (fun p => p.1 != id)

/-- `CacheManager::get` (`LruCache::get`): returns the entry and
promotes it to most-recently-used. -/
def cache_get (c : List (Uuid × Bytes)) (id : Uuid) :
    Option Bytes × List (Uuid × Bytes) :=
  match (c.find? (fun p => p.1 == id)).map (fun p => p.2) with
  | none => (none, c)
  | some v => (some v, (id, v) :: c.filter (fun p => p.1 != id))

/-- `name_to_id.json` contents: either a parsable string-to-UUID map or
bytes that fail to deserialize as one. -/
inductive IndexFile where
  | valid (entries : List (String × Uuid))
  | invalid
deriving DecidableEq

/-- The mutable state a `DiskStorage` value acts on: the two on-disk
directories (association lists keyed by UUID file name), the name-index
file (absent, parsable, or corrupt), the in-memory LRU cache contents,
and the monotone counter producing fresh v4 UUIDs. -/
structure StorageState where
  metadataDir : List (Uuid × FileMetadata)
  chunksDir : List (Uuid × Bytes)
  nameIndex : Option IndexFile
  cacheState : List (Uuid × Bytes)
  ctr : Uuid
deriving DecidableEq

/-- Read a directory entry (`fs::read` / metadata path probe). -/
def fsLookup {α : Type} (dir : List (Uuid × α)) (k : Uuid) : Option α :=
  (dir.find? (fun p => p.1 == k)).map (fun p => p.2)

/-- Write a file, overwriting any previous content (`fs::write`). -/
def fsWrite {α : Type} (dir : List (Uuid × α)) (k : Uuid) (v : α) :
    List (Uuid × α) :=
  (k, v) :: dir.filter (fun p => p.1 != k)

/-- Remove a file (`fs::remove_file`). -/
def fsRemove {α : Type} (dir : List (Uuid × α)) (k : Uuid) :
    List (Uuid × α) :=
  dir.filter (fun p => p.1 != k)

/-- `DiskStorage` from src/src/storage/disk.rs: the optional pipeline
stages configured by the builder methods.  The cache field records the
capacity passed to `with_cache`. -/
structure DiskStorage where
  encryption : Option EncryptionConfig
  compression : Option CompressionManager
  cache : Option Nat
deriving DecidableEq

/-- `DiskStorage::new`: no stage configured. -/
def DiskStorage.new : DiskStorage := ⟨none, none, none⟩

/-- `DiskStorage::with_encryption`. -/
def DiskStorage.with_encryption (self : DiskStorage) (key : Bytes) :
    DiskStorage :=
  { self with encryption := some (EncryptionConfig.new key) }

/-- `DiskStorage::with_cache`. -/
def DiskStorage.with_cache (self : DiskStorage) (cache_size : Nat) :
    DiskStorage :=
  { self with cache := some cache_size }

/-- `DiskStorage::with_compression`. -/
def DiskStorage.with_compression (self : DiskStorage) (enabled : Bool) :
    DiskStorage :=
  { self with compression := some ⟨enabled⟩ }

/-- `DiskStorage::process_data`: optional compression, then optional
encryption. -/
def process_data (E : Ext) (self : DiskStorage) (data : Bytes) :
    Except StorageError Bytes :=
  match (match self.compression with
         | some compression => compression.compress E data
         | none => .ok data : Except StorageError Bytes) with
  | .error e => .error e
  | .ok compressed_data =>
    match self.encryption with
    | some encryption => encryption.encrypt E compressed_data
    | none => .ok compressed_data

/-- `DiskStorage::deprocess_data`: optional decryption, then optional
decompression. -/
def deprocess_data (E : Ext) (self : DiskStorage) (data : Bytes) :
    Except StorageError Bytes :=
  match (match self.encryption with
         | some encryption => encryption.decrypt E data
         | none => .ok data : Except StorageError Bytes) with
  | .error e => .error e
  | .ok decrypted_data =>
    match self.compression with
    | some compression => compression.decompress E decrypted_data
    | none => .ok decrypted_data

/-- `DiskStorage::process_file_by_type`: Image, Video and Audio pass
through unchanged; Document and Unknown run the compress-then-encrypt
pipeline. -/
def process_file_by_type (E : Ext) (self : DiskStorage)
    (file_type : FileType) (data : Bytes) : Except StorageError Bytes :=
  match file_type with
  | .Image _ => .ok data
  | .Document _ => process_data E self data
  | .Video _ => .ok data
  | .Audio _ => .ok data
  | .Unknown => process_data E self data

/-- `DiskStorage::deprocess_file_by_type`.  Note the Document arm of
the source calls `process_data`, not `deprocess_data`; the model keeps
that behaviour faithfully. -/
def deprocess_file_by_type (E : Ext) (self : DiskStorage)
    (file_type : FileType) (data : Bytes) : Except StorageError Bytes :=
  match file_type with
  | .Image _ => .ok data
  | .Document _ => process_data E self data
  | .Video _ => .ok data
  | .Audio _ => .ok data
  | .Unknown => deprocess_data E self data

/-- `DiskStorage::store_chunks`: write every chunk's bytes to
`chunks/<chunk-uuid>` and collect the ids in input order. -/
def store_chunks (chunks : List Chunk) (st : StorageState) :
    List ChunkId × StorageState :=
  match chunks with
  | [] => ([], st)
  | c :: rest =>
    let st1 := { st with chunksDir := fsWrite st.chunksDir c.id.val c.data }
    let r := store_chunks rest st1
    (c.id :: r.1, r.2)

/-- `DiskStorage::calculate_checksum`: SHA-256 hex over the bytes. -/
def calculate_checksum (E : Ext) (data : Bytes) : String :=
  E.sha256Hex data

/-- `DiskStorage::update_name_index`: read `name_to_id.json` if it
exists (a parse failure falls back to the empty map via
`unwrap_or_default`), insert or overwrite the entry, rewrite the file. -/
def update_name_index (name : String) (id : Uuid) (st : StorageState) :
    StorageState :=
  let index : List (String × Uuid) :=
    match st.nameIndex with
    | some (.valid m) => m
    | some .invalid => []
    | none => []
  { st with nameIndex := some (IndexFile.valid
      ((name, id) :: index.filter (fun p => p.1 != name))) }

/-- `DiskStorage::is_chunk_used_by_others`: scan every metadata record,
skip the file being deleted (compared by the parsed id field), and
report whether any other record references the chunk. -/
def is_chunk_used_by_others (st : StorageState) (chunk_id : ChunkId)
    (current_file_id : Uuid) : Bool :=
  st.metadataDir.any (fun p =>
    p.2.id != current_file_id && p.2.chunk_ids.contains chunk_id)

/-- `DiskStorage::cleanup_orphaned_chunks`: gather every chunk id
referenced by any metadata record and delete every chunk file whose
name is not among them. -/
def cleanup_orphaned_chunks (st : StorageState) : StorageState :=
  let referenced :=
    st.metadataDir.flatMap (fun p => p.2.chunk_ids.map (fun c => c.val))
  { st with chunksDir :=
      st.chunksDir.filter (fun p => referenced.contains p.1) }

/-- `DiskStorage::store_file` (src/src/storage/disk.rs, via the
StorageBackend impl): fresh id, type detection, per-type transform,
chunking, chunk writes, metadata write, name-index update, cache
population with the post-transform bytes. -/
def store_file (E : Ext) (self : DiskStorage) (name : String)
    (data : Bytes) (st : StorageState) :
    Except StorageError (FileMetadata × StorageState) :=
  let id := st.ctr
  let st0 := { st with ctr := st.ctr + 1 }
  let file_type := FileTypeDetector.detect E data
  match process_file_by_type E self file_type data with
  | .error e => .error e
  | .ok final_data =>
    let cr := chunk_data E DEFAULT_CHUNK_SIZE default_chunk_size_pos
      st0.ctr final_data
    let st1 := { st0 with ctr := cr.2 }
    let sr := store_chunks cr.1 st1
    let metadata : FileMetadata :=
      ⟨id, name, final_data.length, E.now, E.now,
        calculate_checksum E final_data, file_type, sr.1⟩
    let st3 := { sr.2 with metadataDir := fsWrite sr.2.metadataDir id metadata }
    let st4 := update_name_index name id st3
    let st5 := match self.cache with
      | some cap =>
        { st4 with cacheState := lru_put cap st4.cacheState id final_data }
      | none => st4
    .ok (metadata, st5)

/-- The chunk-reading loop of `DiskStorage::get_file`: read each chunk
file in metadata order and concatenate; a missing chunk file surfaces
the `fs::read` error. -/
def read_chunks (st : StorageState) : List ChunkId → Except StorageError Bytes
  | [] => .ok []
  | cid :: rest =>
    match fsLookup st.chunksDir cid.val with
    | none => .error (.Io "chunk file missing")
    | some b =>
      match read_chunks st rest with
      | .error e => .error e
      | .ok r => .ok (b ++ r)

/-- `DiskStorage::get_file`: metadata lookup (NotFound when the file is
absent), chunk reads in metadata order, per-type inverse transform,
cache population with the returned bytes.  The source never consults
the cache here. -/
def get_file (E : Ext) (self : DiskStorage) (id : Uuid)
    (st : StorageState) : Except StorageError (Bytes × StorageState) :=
  match fsLookup st.metadataDir id with
  | none => .error (.NotFound (toString id))
  | some metadata =>
    match read_chunks st metadata.chunk_ids with
    | .error e => .error e
    | .ok data =>
      match deprocess_file_by_type E self metadata.file_type data with
      | .error e => .error e
      | .ok final_data =>
        let st1 := match self.cache with
          | some cap =>
            { st with cacheState := lru_put cap st.cacheState id final_data }
          | none => st
        .ok (final_data, st1)

/-- `DiskStorage::delete_file`: NotFound when the metadata file is
absent; otherwise remove every listed chunk not referenced by another
record, remove the metadata file, sweep orphaned chunks, and invalidate
the cache entry. -/
def delete_file (self : DiskStorage) (id : Uuid) (st : StorageState) :
    Except StorageError StorageState :=
  match fsLookup st.metadataDir id with
  | none => .error (.NotFound (toString id))
  | some metadata =>
    let st1 := metadata.chunk_ids.foldl (fun s cid =>
      if is_chunk_used_by_others s cid id then s
      else { s with chunksDir := fsRemove s.chunksDir cid.val }) st
    let st2 := { st1 with metadataDir := fsRemove st1.metadataDir id }
    let st3 := cleanup_orphaned_chunks st2
    let st4 := match self.cache with
      | some _ => { st3 with cacheState := cache_invalidate st3.cacheState id }
      | none => st3
    .ok st4

/-- `last_error.unwrap()` at the end of `with_retry`: a `some` error is
returned, `none` aborts the process (modelled as `none` in the result's
first component). -/
def last_error_unwrap {ε α : Type} (lastError : Option ε) (calls : Nat) :
    Option (Except ε α) × Nat :=
  match lastError with
  | some e => (some (.error e), calls)
  | none => (none, calls)

/-- The loop of `with_retry` from src/src/storage/retry.rs, with the
operation's behaviour on its i-th invocation given by `op i`.  The
first component is the returned `Result`; the second counts how many
times the operation was invoked. -/
def with_retry_go {ε α : Type} (op : Nat → Except ε α) (maxRetries : Nat)
    (attempts : Nat) (lastError : Option ε) (calls : Nat) :
    Option (Except ε α) × Nat :=
  if _h : attempts < maxRetries then
    match op attempts with
    | .ok result => (some (.ok result), calls + 1)
    | .error e => with_retry_go op maxRetries (attempts + 1) (some e) (calls + 1)
  else
    last_error_unwrap lastError calls
termination_by maxRetries - attempts
decreasing_by omega

/-- `with_retry(config, operation)` with `config.max_retries` =
`maxRetries` (the sleeps between attempts are irrelevant to the
returned value and are dropped). -/
def with_retry {ε α : Type} (maxRetries : Nat) (op : Nat → Except ε α) :
    Option (Except ε α) × Nat :=
  with_retry_go op maxRetries 0 none 0

theorem find?_filter_ne {α : Type} (d : List (Uuid × α)) (k u : Uuid)
    (h : u ≠ k) :
    (d.filter (fun p => p.1 != k)).find? (fun p => p.1 == u) =
      d.find? (fun p => p.1 == u) := by
  induction d with
  | nil => rfl
  | cons a t ih =>
    by_cases hak : a.1 = k
    · simp [List.filter_cons, List.find?_cons, hak, Ne.symm h, ih]
    · by_cases hau : a.1 = u
      · simp [List.filter_cons, List.find?_cons, hak, hau, h, Ne.symm h]
      · simp [List.filter_cons, List.find?_cons, hak, hau, h, Ne.symm h, ih]

theorem fsLookup_fsWrite_self {α : Type} (d : List (Uuid × α)) (k : Uuid)
    (v : α) : fsLookup (fsWrite d k v) k = some v := by
  simp [fsLookup, fsWrite, List.find?_cons]

theorem fsLookup_fsWrite_ne {α : Type} (d : List (Uuid × α)) (k u : Uuid)
    (v : α) (h : u ≠ k) : fsLookup (fsWrite d k v) u = fsLookup d u := by
  simp [fsLookup, fsWrite, List.find?_cons, Ne.symm h, find?_filter_ne d k u h]

theorem fsLookup_fsRemove_self {α : Type} (d : List (Uuid × α)) (k : Uuid) :
    fsLookup (fsRemove d k) k = none := by
  simp only [fsLookup, fsRemove]
  induction d with
  | nil => rfl
  | cons a t ih =>
    by_cases hak : a.1 = k
    · have h1 : (a.1 != k) = false := by simp [hak]
      simp [List.filter_cons, h1, ih]
    · have h1 : (a.1 != k) = true := by simp [hak]
      have h2 : (a.1 == k) = false := by simp [hak]
      simp [List.filter_cons, h1, List.find?_cons, h2, ih]

theorem fsLookup_fsRemove_ne {α : Type} (d : List (Uuid × α)) (k u : Uuid)
    (h : u ≠ k) : fsLookup (fsRemove d k) u = fsLookup d u := by
  simp [fsLookup, fsRemove, find?_filter_ne d k u h]

theorem fsLookup_mem {α : Type} {d : List (Uuid × α)} {u : Uuid} {v : α}
    (h : fsLookup d u = some v) : (u, v) ∈ d := by
  simp only [fsLookup] at h
  cases hf : d.find? (fun p => p.1 == u) with
  | none => rw [hf] at h; cases h
  | some p =>
    rw [hf] at h
    have hm := List.mem_of_find?_eq_some hf
    have he := List.find?_some hf
    simp only [beq_iff_eq] at he
    obtain ⟨p1, p2⟩ := p
    simp only [Option.map_some'] at h
    cases h
    cases he
    exact hm

/-- `store_chunks` touches only the chunks directory. -/
theorem store_chunks_frame (chunks : List Chunk) (st : StorageState) :
    (store_chunks chunks st).2.metadataDir = st.metadataDir ∧
      (store_chunks chunks st).2.nameIndex = st.nameIndex ∧
      (store_chunks chunks st).2.cacheState = st.cacheState ∧
      (store_chunks chunks st).2.ctr = st.ctr := by
  induction chunks generalizing st with
  | nil => simp [store_chunks]
  | cons c rest ih =>
    simp only [store_chunks]
    exact ih _

/-- `store_chunks` returns the chunk ids in input order. -/
theorem store_chunks_fst (chunks : List Chunk) (st : StorageState) :
    (store_chunks chunks st).1 = chunks.map Chunk.id := by
  induction chunks generalizing st with
  | nil => simp [store_chunks]
  | cons c rest ih =>
    simp only [store_chunks, List.map_cons]
    rw [ih]

/-- Chunk files whose names are not among the written ids keep their
previous content. -/
theorem store_chunks_lookup_not_mem (chunks : List Chunk)
    (st : StorageState) (u : Uuid)
    (h : ∀ c ∈ chunks, c.id.val ≠ u) :
    fsLookup (store_chunks chunks st).2.chunksDir u =
      fsLookup st.chunksDir u := by
  induction chunks generalizing st with
  | nil => simp [store_chunks]
  | cons c rest ih =>
    simp only [store_chunks]
    rw [ih _ (fun c hc => h c (List.mem_cons_of_mem _ hc))]
    exact fsLookup_fsWrite_ne _ _ _ _ (fun he => h c (List.mem_cons_self _ _) he.symm)

/-- After `store_chunks` with pairwise-distinct ids, every written
chunk file holds its chunk's bytes. -/
theorem store_chunks_lookup_mem (chunks : List Chunk) (st : StorageState)
    (hnd : (chunks.map (fun c => c.id.val)).Nodup) :
    ∀ c ∈ chunks,
      fsLookup (store_chunks chunks st).2.chunksDir c.id.val = some c.data := by
  induction chunks generalizing st with
  | nil => simp
  | cons c rest ih =>
    intro c2 hc2
    simp only [List.map_cons, List.nodup_cons, List.mem_map] at hnd
    rcases List.mem_cons.mp hc2 with rfl | htail
    · simp only [store_chunks]
      rw [store_chunks_lookup_not_mem rest _ c2.id.val
        (fun d hd he => hnd.1 ⟨d, hd, he⟩)]
      exact fsLookup_fsWrite_self _ _ _
    · simp only [store_chunks]
      exact ih _ hnd.2 c2 htail

/-- `read_chunks` depends only on the looked-up chunk files. -/
theorem read_chunks_congr (st1 st2 : StorageState) (cids : List ChunkId)
    (h : ∀ cid ∈ cids, fsLookup st2.chunksDir cid.val =
      fsLookup st1.chunksDir cid.val) :
    read_chunks st2 cids = read_chunks st1 cids := by
  induction cids with
  | nil => rfl
  | cons cid rest ih =>
    simp only [read_chunks]
    rw [h cid (List.mem_cons_self _ _),
      ih (fun c hc => h c (List.mem_cons_of_mem _ hc))]

/-- Reading back the ids of chunks whose files hold their bytes yields
the concatenation of the chunk data. -/
theorem read_chunks_of_lookup (st : StorageState) (chunks : List Chunk)
    (h : ∀ c ∈ chunks, fsLookup st.chunksDir c.id.val = some c.data) :
    read_chunks st (chunks.map Chunk.id) =
      .ok ((chunks.map Chunk.data).flatten) := by
  induction chunks with
  | nil => simp [read_chunks]
  | cons c rest ih =>
    simp only [List.map_cons, read_chunks, h c (List.mem_cons_self _ _),
      ih (fun d hd => h d (List.mem_cons_of_mem _ hd)), List.flatten_cons]

/-- Decompression inverts compression (per stage). -/
theorem compress_roundtrip {E : Ext} (hg : GzipRoundTrip E)
    (cm : CompressionManager) (x y : Bytes)
    (h : cm.compress E x = .ok y) : cm.decompress E y = .ok x := by
  cases cm with
  | mk enabled =>
    cases enabled with
    | false =>
      simp only [CompressionManager.compress] at h
      simp at h
      simp [CompressionManager.decompress, h]
    | true =>
      simp only [CompressionManager.compress, Bool.not_true,
        Bool.false_eq_true, if_false] at h
      simp only [CompressionManager.decompress, Bool.not_true,
        Bool.false_eq_true, if_false]
      exact hg x y h

/-- Decryption inverts encryption (per stage). -/
theorem encrypt_roundtrip {E : Ext} (ha : AesRoundTrip E)
    (ec : EncryptionConfig) (x y : Bytes)
    (h : ec.encrypt E x = .ok y) : ec.decrypt E y = .ok x := by
  cases ec with
  | mk key enabled =>
    cases enabled with
    | false =>
      simp only [EncryptionConfig.encrypt] at h
      simp at h
      simp [EncryptionConfig.decrypt, h]
    | true =>
      simp only [EncryptionConfig.encrypt, Bool.not_true,
        Bool.false_eq_true, if_false] at h
      simp only [EncryptionConfig.decrypt, Bool.not_true,
        Bool.false_eq_true, if_false]
      exact ha key fixed_nonce x y h

/-- `deprocess_data` inverts `process_data`. -/
theorem process_data_roundtrip {E : Ext} (hg : GzipRoundTrip E)
    (ha : AesRoundTrip E) (self : DiskStorage) (x y : Bytes)
    (h : process_data E self x = .ok y) : deprocess_data E self y = .ok x := by
  simp only [process_data] at h
  cases hc : (match self.compression with
      | some compression => compression.compress E x
      | none => .ok x : Except StorageError Bytes) with
  | error e => rw [hc] at h; exact absurd h (by simp)
  | ok compressed =>
    rw [hc] at h
    simp only at h
    have hdec : (match self.encryption with
        | some encryption => encryption.decrypt E y
        | none => .ok y : Except StorageError Bytes) = .ok compressed := by
      cases he : self.encryption with
      | none =>
        rw [he] at h
        simp_all
      | some ec =>
        rw [he] at h
        exact encrypt_roundtrip ha ec compressed y h
    simp only [deprocess_data, hdec]
    cases hcm : self.compression with
    | none =>
      rw [hcm] at hc
      simp_all
    | some cm =>
      rw [hcm] at hc
      exact compress_roundtrip hg cm x compressed hc

/-- `process_data` succeeds whenever the underlying codecs do. -/
theorem process_data_total {E : Ext} (hcT : CompressTotal E)
    (heT : EncryptTotal E) (self : DiskStorage) (x : Bytes) :
    ∃ y, process_data E self x = .ok y := by
  simp only [process_data]
  have hcomp : ∃ c, (match self.compression with
      | some compression => compression.compress E x
      | none => .ok x : Except StorageError Bytes) = .ok c := by
    cases self.compression with
    | none => exact ⟨x, rfl⟩
    | some cm =>
      cases cm with
      | mk enabled =>
        cases enabled with
        | false => exact ⟨x, by simp [CompressionManager.compress]⟩
        | true =>
          obtain ⟨y, hy⟩ := hcT x
          exact ⟨y, by simp [CompressionManager.compress, hy]⟩
  obtain ⟨c, hc⟩ := hcomp
  rw [hc]
  cases self.encryption with
  | none => exact ⟨c, rfl⟩
  | some ec =>
    cases ec with
    | mk key enabled =>
      cases enabled with
      | false => exact ⟨c, by simp [EncryptionConfig.encrypt]⟩
      | true =>
        obtain ⟨y, hy⟩ := heT key fixed_nonce c
        exact ⟨y, by simp [EncryptionConfig.encrypt, hy]⟩

/-- For non-Document file types the inverse transform recovers the
input of the forward transform. -/
theorem deprocess_process_of_not_document {E : Ext} (hg : GzipRoundTrip E)
    (ha : AesRoundTrip E) (self : DiskStorage) (ft : FileType) (x y : Bytes)
    (hft : ∀ d, ft ≠ .Document d)
    (hp : process_file_by_type E self ft x = .ok y) :
    deprocess_file_by_type E self ft y = .ok x := by
  cases ft with
  | Image t =>
    simp only [process_file_by_type, Except.ok.injEq] at hp
    simp [deprocess_file_by_type, hp]
  | Video t =>
    simp only [process_file_by_type, Except.ok.injEq] at hp
    simp [deprocess_file_by_type, hp]
  | Audio t =>
    simp only [process_file_by_type, Except.ok.injEq] at hp
    simp [deprocess_file_by_type, hp]
  | Document t => exact absurd rfl (hft t)
  | Unknown =>
    simp only [process_file_by_type] at hp
    simp only [deprocess_file_by_type]
    exact process_data_roundtrip hg ha self x y hp

/-- The inverse transform of any stored transform output succeeds,
whatever the file type (for Document it re-runs the forward pipeline,
which succeeds by codec totality). -/
theorem deprocess_after_process_ok {E : Ext} (hg : GzipRoundTrip E)
    (ha : AesRoundTrip E) (hcT : CompressTotal E) (heT : EncryptTotal E)
    (self : DiskStorage) (ft : FileType) (x y : Bytes)
    (hp : process_file_by_type E self ft x = .ok y) :
    ∃ z, deprocess_file_by_type E self ft y = .ok z := by
  cases ft with
  | Image t => exact ⟨y, rfl⟩
  | Video t => exact ⟨y, rfl⟩
  | Audio t => exact ⟨y, rfl⟩
  | Document t =>
    simp only [deprocess_file_by_type]
    exact process_data_total hcT heT self y
  | Unknown =>
    simp only [process_file_by_type] at hp
    simp only [deprocess_file_by_type]
    exact ⟨x, process_data_roundtrip hg ha self x y hp⟩

/-- Observation of the name-index file: the id a name resolves to
(what the collaborators' `download name` path reads). -/
def indexLookup (st : StorageState) (name : String) : Option Uuid :=
  match st.nameIndex with
  | some (.valid m) => (m.find? (fun p => p.1 == name)).map (fun p => p.2)
  | _ => none

/-- The value `store_file` returns once the transform output
`final_data` of the detected type is known (pure restatement of its
success path, used to reason about the branch-free tail). -/
def store_file_result (E : Ext) (self : DiskStorage) (name : String)
    (st : StorageState) (file_type : FileType) (final_data : Bytes) :
    FileMetadata × StorageState :=
  let id := st.ctr
  let cr := chunk_data E DEFAULT_CHUNK_SIZE default_chunk_size_pos
    (st.ctr + 1) final_data
  let st1 : StorageState := { st with ctr := cr.2 }
  let sr := store_chunks cr.1 st1
  let metadata : FileMetadata :=
    ⟨id, name, final_data.length, E.now, E.now,
      calculate_checksum E final_data, file_type, sr.1⟩
  let st3 := { sr.2 with metadataDir := fsWrite sr.2.metadataDir id metadata }
  let st4 := update_name_index name id st3
  let st5 := match self.cache with
    | some cap =>
      { st4 with cacheState := lru_put cap st4.cacheState id final_data }
    | none => st4
  (metadata, st5)

theorem store_file_eq (E : Ext) (self : DiskStorage) (name : String)
    (data : Bytes) (st : StorageState) (final : Bytes)
    (hp : process_file_by_type E self (FileTypeDetector.detect E data) data =
      .ok final) :
    store_file E self name data st =
      .ok (store_file_result E self name st
        (FileTypeDetector.detect E data) final) := by
  simp only [store_file, hp]
  rfl

theorem store_file_fails (E : Ext) (self : DiskStorage) (name : String)
    (data : Bytes) (st : StorageState) (e : StorageError)
    (hp : process_file_by_type E self (FileTypeDetector.detect E data) data =
      .error e) :
    store_file E self name data st = .error e := by
  simp only [store_file, hp]

theorem store_file_inv (E : Ext) (self : DiskStorage) (name : String)
    (data : Bytes) (st : StorageState) (m : FileMetadata)
    (st2 : StorageState)
    (hs : store_file E self name data st = .ok (m, st2)) :
    ∃ final,
      process_file_by_type E self (FileTypeDetector.detect E data) data =
          .ok final ∧
        (m, st2) = store_file_result E self name st
          (FileTypeDetector.detect E data) final := by
  cases hp : process_file_by_type E self (FileTypeDetector.detect E data) data with
  | error e =>
    rw [store_file_fails E self name data st e hp] at hs
    cases hs
  | ok final =>
    rw [store_file_eq E self name data st final hp] at hs
    injection hs with h2
    exact ⟨final, rfl, h2.symm⟩

/-- The metadata record built by a successful `store_file`. -/
theorem store_file_result_meta (E : Ext) (self : DiskStorage)
    (name : String) (st : StorageState) (ft : FileType) (final : Bytes) :
    (store_file_result E self name st ft final).1 =
      ⟨st.ctr, name, final.length, E.now, E.now, E.sha256Hex final, ft,
        ((chunk_data E DEFAULT_CHUNK_SIZE default_chunk_size_pos
            (st.ctr + 1) final).1).map Chunk.id⟩ := by
  simp only [store_file_result, calculate_checksum, store_chunks_fst]

/-- A successful `store_file` writes the metadata record at the fresh
id and leaves every other metadata file unchanged. -/
theorem store_file_result_metadataDir (E : Ext) (self : DiskStorage)
    (name : String) (st : StorageState) (ft : FileType) (final : Bytes) :
    (store_file_result E self name st ft final).2.metadataDir =
      fsWrite st.metadataDir st.ctr
        (store_file_result E self name st ft final).1 := by
  obtain ⟨hmd, hni, hcs, hctr⟩ := store_chunks_frame
    (chunk_data E DEFAULT_CHUNK_SIZE default_chunk_size_pos
      (st.ctr + 1) final).1
    { st with ctr := (chunk_data E DEFAULT_CHUNK_SIZE
        default_chunk_size_pos (st.ctr + 1) final).2 }
  cases hc : self.cache with
  | none =>
    simp only [store_file_result, update_name_index, hc]
    rw [hmd]
  | some cap =>
    simp only [store_file_result, update_name_index, hc]
    rw [hmd]

/-- The name index after a successful `store_file` is the index update
applied to the prior state. -/
theorem store_file_result_nameIndex (E : Ext) (self : DiskStorage)
    (name : String) (st : StorageState) (ft : FileType) (final : Bytes) :
    (store_file_result E self name st ft final).2.nameIndex =
      (update_name_index name st.ctr st).nameIndex := by
  obtain ⟨hmd, hni, hcs, hctr⟩ := store_chunks_frame
    (chunk_data E DEFAULT_CHUNK_SIZE default_chunk_size_pos
      (st.ctr + 1) final).1
    { st with ctr := (chunk_data E DEFAULT_CHUNK_SIZE
        default_chunk_size_pos (st.ctr + 1) final).2 }
  cases hc : self.cache with
  | none =>
    simp only [store_file_result, update_name_index, hc]
    rw [hni]
  | some cap =>
    simp only [store_file_result, update_name_index, hc]
    rw [hni]

/-- The cache after a successful `store_file`: the post-transform bytes
are inserted under the fresh id when a cache is configured. -/
theorem store_file_result_cacheState (E : Ext) (self : DiskStorage)
    (name : String) (st : StorageState) (ft : FileType) (final : Bytes) :
    (store_file_result E self name st ft final).2.cacheState =
      (match self.cache with
       | some cap => lru_put cap st.cacheState st.ctr final
       | none => st.cacheState) := by
  obtain ⟨hmd, hni, hcs, hctr⟩ := store_chunks_frame
    (chunk_data E DEFAULT_CHUNK_SIZE default_chunk_size_pos
      (st.ctr + 1) final).1
    { st with ctr := (chunk_data E DEFAULT_CHUNK_SIZE
        default_chunk_size_pos (st.ctr + 1) final).2 }
  cases hc : self.cache with
  | none =>
    simp only [store_file_result, update_name_index, hc]
    rw [hcs]
  | some cap =>
    simp only [store_file_result, update_name_index, hc]
    rw [hcs]

/-- The UUID counter after a successful `store_file` has advanced past
the file id and every chunk id. -/
theorem store_file_result_ctr (E : Ext) (self : DiskStorage)
    (name : String) (st : StorageState) (ft : FileType) (final : Bytes) :
    (store_file_result E self name st ft final).2.ctr =
      st.ctr + 1 + ((chunk_data E DEFAULT_CHUNK_SIZE
        default_chunk_size_pos (st.ctr + 1) final).1).length := by
  obtain ⟨hmd, hni, hcs, hctr⟩ := store_chunks_frame
    (chunk_data E DEFAULT_CHUNK_SIZE default_chunk_size_pos
      (st.ctr + 1) final).1
    { st with ctr := (chunk_data E DEFAULT_CHUNK_SIZE
        default_chunk_size_pos (st.ctr + 1) final).2 }
  obtain ⟨hids, hsnd⟩ := chunk_data_ids E DEFAULT_CHUNK_SIZE
    default_chunk_size_pos final.length final (st.ctr + 1) (Nat.le_refl _)
  cases hc : self.cache with
  | none =>
    simp only [store_file_result, update_name_index, hc]
    rw [hctr, hsnd]
  | some cap =>
    simp only [store_file_result, update_name_index, hc]
    rw [hctr, hsnd]

/-- The chunks directory after a successful `store_file` is exactly the
one produced by writing the freshly produced chunks. -/
theorem store_file_result_chunksDir (E : Ext) (self : DiskStorage)
    (name : String) (st : StorageState) (ft : FileType) (final : Bytes) :
    (store_file_result E self name st ft final).2.chunksDir =
      (store_chunks
        (chunk_data E DEFAULT_CHUNK_SIZE default_chunk_size_pos
          (st.ctr + 1) final).1
        { st with ctr := (chunk_data E DEFAULT_CHUNK_SIZE
            default_chunk_size_pos (st.ctr + 1) final).2 }).2.chunksDir := by
  cases hc : self.cache with
  | none => simp only [store_file_result, update_name_index, hc]
  | some cap => simp only [store_file_result, update_name_index, hc]

/-- After a successful `store_file`, each written chunk file holds its
chunk's bytes. -/
theorem store_file_result_lookup_chunk (E : Ext) (self : DiskStorage)
    (name : String) (st : StorageState) (ft : FileType) (final : Bytes) :
    ∀ c ∈ (chunk_data E DEFAULT_CHUNK_SIZE default_chunk_size_pos
        (st.ctr + 1) final).1,
      fsLookup (store_file_result E self name st ft final).2.chunksDir
          c.id.val = some c.data := by
  intro c hc
  rw [store_file_result_chunksDir]
  refine store_chunks_lookup_mem _ _ ?_ c hc
  rw [(chunk_data_ids E DEFAULT_CHUNK_SIZE default_chunk_size_pos
    final.length final (st.ctr + 1) (Nat.le_refl _)).1]
  exact List.nodup_range' _ _

/-- Chunk files named below the pre-store counter are untouched by
`store_file`. -/
theorem store_file_result_lookup_old (E : Ext) (self : DiskStorage)
    (name : String) (st : StorageState) (ft : FileType) (final : Bytes)
    (u : Uuid) (hu : u < st.ctr + 1) :
    fsLookup (store_file_result E self name st ft final).2.chunksDir u =
      fsLookup st.chunksDir u := by
  rw [store_file_result_chunksDir]
  refine (store_chunks_lookup_not_mem _ _ u ?_).trans rfl
  intro c hc he
  have hmem : c.id.val ∈ (chunk_data E DEFAULT_CHUNK_SIZE
      default_chunk_size_pos (st.ctr + 1) final).1.map
        (fun c => c.id.val) := List.mem_map_of_mem _ hc
  rw [(chunk_data_ids E DEFAULT_CHUNK_SIZE default_chunk_size_pos
    final.length final (st.ctr + 1) (Nat.le_refl _)).1] at hmem
  have hbound := (List.mem_range'_1.mp hmem).1
  exact absurd (he ▸ hbound) (Nat.not_le.mpr hu)

/-- Every chunk id recorded in the new metadata is at least
`st.ctr + 1` (fresh), so below the post-store counter. -/
theorem store_file_result_chunk_id_bounds (E : Ext) (self : DiskStorage)
    (name : String) (st : StorageState) (ft : FileType) (final : Bytes) :
    ∀ cid ∈ (store_file_result E self name st ft final).1.chunk_ids,
      st.ctr + 1 ≤ cid.val ∧
        cid.val < (store_file_result E self name st ft final).2.ctr := by
  intro cid hcid
  rw [store_file_result_meta] at hcid
  simp only [List.mem_map] at hcid
  obtain ⟨c, hc, rfl⟩ := hcid
  have hmem : c.id.val ∈ (chunk_data E DEFAULT_CHUNK_SIZE
      default_chunk_size_pos (st.ctr + 1) final).1.map
        (fun c => c.id.val) := List.mem_map_of_mem _ hc
  rw [(chunk_data_ids E DEFAULT_CHUNK_SIZE default_chunk_size_pos
    final.length final (st.ctr + 1) (Nat.le_refl _)).1] at hmem
  have hbound := List.mem_range'_1.mp hmem
  rw [store_file_result_ctr]
  exact hbound

/-- After a successful `store_file`, reading the file back: the
metadata record is found under the fresh id, the chunk reads
reassemble exactly the post-transform bytes, and the inverse transform
runs on them.  For every file type the read succeeds (given total
codecs); for every non-Document type it returns the original data. -/
theorem get_file_after_store (E : Ext) (self : DiskStorage)
    (name : String) (data : Bytes) (st : StorageState) (m : FileMetadata)
    (st2 : StorageState) (hg : GzipRoundTrip E) (ha : AesRoundTrip E)
    (hcT : CompressTotal E) (heT : EncryptTotal E)
    (hs : store_file E self name data st = .ok (m, st2)) :
    ∃ out st3, get_file E self m.id st2 = .ok (out, st3) ∧
      ((∀ d, m.file_type ≠ .Document d) → out = data) := by
  obtain ⟨final, hp, heq⟩ := store_file_inv E self name data st m st2 hs
  have hm : m = (store_file_result E self name st
      (FileTypeDetector.detect E data) final).1 := congrArg Prod.fst heq
  have hst : st2 = (store_file_result E self name st
      (FileTypeDetector.detect E data) final).2 := congrArg Prod.snd heq
  have hid : m.id = st.ctr := by rw [hm, store_file_result_meta]
  have hft : m.file_type = FileTypeDetector.detect E data := by
    rw [hm, store_file_result_meta]
  have hcid : m.chunk_ids = ((chunk_data E DEFAULT_CHUNK_SIZE
      default_chunk_size_pos (st.ctr + 1) final).1).map Chunk.id := by
    rw [hm, store_file_result_meta]
  have hlook : fsLookup st2.metadataDir m.id = some m := by
    rw [hst, store_file_result_metadataDir, hid, ← hm]
    exact fsLookup_fsWrite_self _ _ _
  have hread : read_chunks st2 m.chunk_ids = .ok final := by
    rw [hcid, hst]
    rw [read_chunks_of_lookup _ _
      (store_file_result_lookup_chunk E self name st
        (FileTypeDetector.detect E data) final)]
    rw [chunk_data_join E DEFAULT_CHUNK_SIZE default_chunk_size_pos
      final.length final (st.ctr + 1) (Nat.le_refl _)]
  obtain ⟨z, hz⟩ := deprocess_after_process_ok hg ha hcT heT self
    (FileTypeDetector.detect E data) data final hp
  have hout : (∀ d, m.file_type ≠ FileType.Document d) → z = data := by
    intro hnd
    rw [hft] at hnd
    have hrt := deprocess_process_of_not_document hg ha self
      (FileTypeDetector.detect E data) data final hnd hp
    rw [hz] at hrt
    exact (Except.ok.injEq z data) ▸ hrt
  cases hcache : self.cache with
  | none =>
    refine ⟨z, st2, ?_, hout⟩
    simp only [get_file, hlook, hread, hft, hz, hcache]
  | some cap =>
    refine ⟨z, { st2 with cacheState := lru_put cap st2.cacheState m.id z },
      ?_, hout⟩
    simp only [get_file, hlook, hread, hft, hz, hcache]

/-- `get_file` returns the same value on two states that agree on the
metadata record of `id` and on the chunk files it references. -/
theorem get_file_value_congr (E : Ext) (self : DiskStorage) (id : Uuid)
    (st stB : StorageState)
    (hmd : fsLookup stB.metadataDir id = fsLookup st.metadataDir id)
    (hch : ∀ meta, fsLookup st.metadataDir id = some meta →
      ∀ cid ∈ meta.chunk_ids,
        fsLookup stB.chunksDir cid.val = fsLookup st.chunksDir cid.val) :
    (get_file E self id stB).map Prod.fst =
      (get_file E self id st).map Prod.fst := by
  cases hl : fsLookup st.metadataDir id with
  | none =>
    rw [hl] at hmd
    simp only [get_file, hl, hmd, Except.map]
  | some meta =>
    rw [hl] at hmd
    have hrc : read_chunks stB meta.chunk_ids =
        read_chunks st meta.chunk_ids :=
      read_chunks_congr st stB meta.chunk_ids (hch meta hl)
    cases hr : read_chunks st meta.chunk_ids with
    | error e =>
      rw [hr] at hrc
      simp only [get_file, hl, hmd, hrc, hr, Except.map]
    | ok bytes =>
      rw [hr] at hrc
      cases hd : deprocess_file_by_type E self meta.file_type bytes with
      | error e =>
        simp only [get_file, hl, hmd, hrc, hr, hd, Except.map]
      | ok out =>
        cases self.cache with
        | none => simp only [get_file, hl, hmd, hrc, hr, hd, Except.map]
        | some cap => simp only [get_file, hl, hmd, hrc, hr, hd, Except.map]

/-- If every invocation fails, the loop walks `attempts` up to
`maxRetries` and returns the error of the last invocation, having
called the operation once per remaining attempt. -/
theorem with_retry_go_all_fail {ε α : Type} (op : Nat → Except ε α)
    (err : Nat → ε) (h : ∀ i, op i = .error (err i)) :
    ∀ fuel maxRetries attempts lastE calls,
      maxRetries - attempts = fuel → attempts < maxRetries →
      with_retry_go op maxRetries attempts lastE calls =
        (some (.error (err (maxRetries - 1))), calls + (maxRetries - attempts)) := by
  intro fuel
  induction fuel with
  | zero =>
    intro maxRetries attempts lastE calls hf hlt
    omega
  | succ f ih =>
    intro maxRetries attempts lastE calls hf hlt
    rw [with_retry_go.eq_def]
    simp only [dif_pos hlt, h attempts]
    by_cases hlt2 : attempts + 1 < maxRetries
    · rw [ih maxRetries (attempts + 1) (some (err attempts)) (calls + 1)
        (by omega) hlt2]
      have he : calls + 1 + (maxRetries - (attempts + 1)) =
          calls + (maxRetries - attempts) := by omega
      rw [he]
    · have hend : attempts + 1 = maxRetries := by omega
      rw [with_retry_go.eq_def]
      simp only [dif_neg (by omega : ¬ attempts + 1 < maxRetries),
        last_error_unwrap]
      have he1 : attempts = maxRetries - 1 := by omega
      have he2 : maxRetries - attempts = 1 := by omega
      rw [he2, he1]

/-- If the operation fails strictly before invocation `k` and succeeds
at invocation `k < maxRetries`, the loop returns that success after
exactly `k + 1` further calls. -/
theorem with_retry_go_succeeds {ε α : Type} (op : Nat → Except ε α)
    (err : Nat → ε) (k : Nat) (v : α)
    (hf : ∀ i, i < k → op i = .error (err i)) (hk : op k = .ok v) :
    ∀ fuel maxRetries attempts lastE calls,
      k - attempts = fuel → attempts ≤ k → k < maxRetries →
      with_retry_go op maxRetries attempts lastE calls =
        (some (.ok v), calls + (k - attempts) + 1) := by
  intro fuel
  induction fuel with
  | zero =>
    intro maxRetries attempts lastE calls hfu hle hlt
    have hak : attempts = k := by omega
    subst hak
    rw [with_retry_go.eq_def]
    simp only [dif_pos (by omega : attempts < maxRetries), hk]
    have he : calls + 1 = calls + (attempts - attempts) + 1 := by omega
    rw [← he]
  | succ f ih =>
    intro maxRetries attempts lastE calls hfu hle hlt
    have haltk : attempts < k := by omega
    rw [with_retry_go.eq_def]
    simp only [dif_pos (by omega : attempts < maxRetries), hf attempts haltk]
    rw [ih maxRetries (attempts + 1) (some (err attempts)) (calls + 1)
      (by omega) (by omega) hlt]
    have he : calls + 1 + (k - (attempts + 1)) + 1 =
        calls + (k - attempts) + 1 := by omega
    rw [he]

/-- Concrete stand-ins for the external codecs, with the round-trip
contracts the engine relies on: the toy gzip prepends a marker byte,
the toy AES-GCM prepends another; SHA-256 is rendered as the printed
byte list; nothing is sniffed as a known MIME type. -/
def extToy : Ext where
  gzipCompress := fun x => .ok (0 :: x)
  gzipDecompress := fun x =>
    match x with
    | 0 :: t => .ok t
    | _ => .error (.Storage "corrupt gzip stream")
  aesGcmEncrypt := fun _ _ x => .ok (1 :: x)
  aesGcmDecrypt := fun _ _ x =>
    match x with
    | 1 :: t => .ok t
    | _ => .error (.Storage "aead error")
  sha256Hex := fun x => toString x
  inferMime := fun _ => none
  now := 0

theorem extToy_gzip_rt : GzipRoundTrip extToy := by
  intro x y h
  simp only [extToy] at h
  injection h with h1
  subst h1
  rfl

theorem extToy_aes_rt : AesRoundTrip extToy := by
  intro k n x y h
  simp only [extToy] at h
  injection h with h1
  subst h1
  rfl

theorem extToy_comp_total : CompressTotal extToy :=
  fun x => ⟨0 :: x, rfl⟩

theorem extToy_enc_total : EncryptTotal extToy :=
  fun _ _ x => ⟨1 :: x, rfl⟩

/-- The toy externals with a sniffer that recognises the input as a
PDF (as `infer` does for bytes starting with the %PDF magic). -/
def extPdf : Ext :=
  { extToy with inferMime := fun _ => some "application/pdf" }

theorem extPdf_gzip_rt : GzipRoundTrip extPdf := extToy_gzip_rt

theorem extPdf_aes_rt : AesRoundTrip extPdf := extToy_aes_rt

/-- Engine with no optional stage configured. -/
def selfPlain : DiskStorage := DiskStorage.new

/-- Engine with compression enabled. -/
def selfCompr : DiskStorage := DiskStorage.new.with_compression true

/-- Engine with compression enabled and a 10-entry cache. -/
def selfComprCache : DiskStorage :=
  (DiskStorage.new.with_compression true).with_cache 10

/-- Engine with only a 10-entry cache. -/
def selfCacheOnly : DiskStorage := DiskStorage.new.with_cache 10

/-- The empty freshly created store. -/
def emptyState : StorageState :=
  { metadataDir := [], chunksDir := [], nameIndex := none,
    cacheState := [], ctr := 0 }

/-- C5: `chunk_data(bytes)` produces chunks whose data fields
concatenate in order to exactly the input; every chunk's size equals
its data's length and is at most the chunk size; the number of chunks
is the ceiling of the input length over the chunk size; empty input
yields no chunks. -/
theorem claim_C5_chunker (E : Ext) (chunkSize : Nat) (hpos : 0 < chunkSize)
    (ctr : Nat) (data : Bytes) :
    (((chunk_data E chunkSize hpos ctr data).1.map Chunk.data).flatten =
        data) ∧
      (∀ c ∈ (chunk_data E chunkSize hpos ctr data).1,
        c.size = c.data.length ∧ c.size ≤ chunkSize) ∧
      ((chunk_data E chunkSize hpos ctr data).1.length =
        (data.length + chunkSize - 1) / chunkSize) ∧
      (data = [] → (chunk_data E chunkSize hpos ctr data).1 = []) := by
  refine ⟨chunk_data_join E chunkSize hpos data.length data ctr (Nat.le_refl _),
    chunk_data_sizes E chunkSize hpos data.length data ctr (Nat.le_refl _),
    chunk_data_count E chunkSize hpos data.length data ctr (Nat.le_refl _),
    ?_⟩
  intro he
  subst he
  rw [chunk_data_nil]

/-- Witness for C5 at the default chunk size and a three-byte input. -/
theorem claim_C5_chunker_witness :
    0 < DEFAULT_CHUNK_SIZE ∧
      ((((chunk_data extToy DEFAULT_CHUNK_SIZE default_chunk_size_pos 0
            [1, 2, 3]).1.map Chunk.data).flatten = [1, 2, 3]) ∧
        (∀ c ∈ (chunk_data extToy DEFAULT_CHUNK_SIZE
            default_chunk_size_pos 0 [1, 2, 3]).1,
          c.size = c.data.length ∧ c.size ≤ DEFAULT_CHUNK_SIZE) ∧
        ((chunk_data extToy DEFAULT_CHUNK_SIZE default_chunk_size_pos 0
            [1, 2, 3]).1.length =
          (([1, 2, 3] : Bytes).length + DEFAULT_CHUNK_SIZE - 1) /
            DEFAULT_CHUNK_SIZE) ∧
        (([1, 2, 3] : Bytes) = [] →
          (chunk_data extToy DEFAULT_CHUNK_SIZE default_chunk_size_pos 0
            [1, 2, 3]).1 = [])) :=
  ⟨default_chunk_size_pos,
    claim_C5_chunker extToy DEFAULT_CHUNK_SIZE default_chunk_size_pos 0
      [1, 2, 3]⟩

/-- C7: with `max_retries = n ≥ 1` and an operation failing on every
invocation, `with_retry` invokes the operation exactly n times and
returns the n-th invocation's error; with an operation failing k times
then succeeding and `max_retries = k + 1`, it returns the success. -/
theorem claim_C7_retry :
    (∀ (ε α : Type) (op : Nat → Except ε α) (err : Nat → ε) (n : Nat),
        1 ≤ n → (∀ i, op i = .error (err i)) →
        with_retry n op = (some (.error (err (n - 1))), n)) ∧
      (∀ (ε α : Type) (op : Nat → Except ε α) (err : Nat → ε) (k : Nat)
          (v : α),
        (∀ i, i < k → op i = .error (err i)) → op k = .ok v →
        with_retry (k + 1) op = (some (.ok v), k + 1)) := by
  constructor
  · intro ε α op err n hn hfail
    rw [with_retry,
      with_retry_go_all_fail op err hfail (n - 0) n 0 none 0 rfl (by omega)]
    simp
  · intro ε α op err k v hf hk
    rw [with_retry,
      with_retry_go_succeeds op err k v hf hk (k - 0) (k + 1) 0 none 0 rfl
        (by omega) (by omega)]
    simp

/-- Witness for C7: an always-failing mock with two retries returns the
second error after two calls; a mock failing twice then succeeding with
three retries returns the success after three calls. -/
theorem claim_C7_retry_witness :
    with_retry 2 (fun i => (Except.error i : Except Nat Nat)) =
        (some (.error 1), 2) ∧
      with_retry 3 (fun i =>
          if i < 2 then (Except.error i : Except Nat Nat) else .ok 99) =
        (some (.ok 99), 3) := by
  constructor
  · exact claim_C7_retry.1 Nat Nat (fun i => .error i) (fun i => i) 2
      (by omega) (fun i => rfl)
  · exact claim_C7_retry.2 Nat Nat
      (fun i => if i < 2 then .error i else .ok 99) (fun i => i) 2 99
      (fun i hi => by simp [hi]) (by simp)

/-- C9: with `max_retries = 0` the operation is never invoked and
`with_retry` aborts on `last_error.unwrap()` instead of returning a
`Result`; an error return is only reachable when `max_retries ≥ 1`. -/
theorem claim_C9_retry_zero_panics :
    (∀ (ε α : Type) (op : Nat → Except ε α), with_retry 0 op = (none, 0)) ∧
      (∀ (ε α : Type) (op : Nat → Except ε α) (maxRetries : Nat) (e : ε)
          (c : Nat),
        with_retry maxRetries op = (some (.error e), c) → 1 ≤ maxRetries) := by
  constructor
  · intro ε α op
    rw [with_retry, with_retry_go.eq_def]
    simp [last_error_unwrap]
  · intro ε α op maxRetries e c h
    by_contra hlt
    have h0 : maxRetries = 0 := by omega
    subst h0
    rw [with_retry, with_retry_go.eq_def] at h
    simp [last_error_unwrap] at h

/-- Witness for C9: a concrete operation under zero retries, and a
concrete reachable error return under one retry. -/
theorem claim_C9_retry_zero_panics_witness :
    with_retry 0 (fun _ => (Except.error 7 : Except Nat Nat)) = (none, 0) ∧
      1 ≤ 1 := by
  have h1 : with_retry 1 (fun _ => (Except.error 7 : Except Nat Nat)) =
      (some (.error 7), 1) :=
    with_retry_go_all_fail (fun _ => .error 7) (fun _ => 7) (fun i => rfl)
      1 1 0 none 0 rfl (by omega)
  exact ⟨claim_C9_retry_zero_panics.1 Nat Nat (fun _ => .error 7),
    claim_C9_retry_zero_panics.2 Nat Nat (fun _ => .error 7) 1 7 1 h1⟩

/-- C8: the metadata checksum produced by `store_file` depends only on
the input bytes and the configured stages: two stores of the same
bytes, under any names and any prior states, record equal checksums. -/
theorem claim_C8_checksum_deterministic (E : Ext) (self : DiskStorage)
    (nameA nameB : String) (x : Bytes) (stA stB : StorageState)
    (mA mB : FileMetadata) (stA2 stB2 : StorageState)
    (hA : store_file E self nameA x stA = .ok (mA, stA2))
    (hB : store_file E self nameB x stB = .ok (mB, stB2)) :
    mA.checksum = mB.checksum := by
  obtain ⟨fA, hpA, heqA⟩ := store_file_inv E self nameA x stA mA stA2 hA
  obtain ⟨fB, hpB, heqB⟩ := store_file_inv E self nameB x stB mB stB2 hB
  have hff : fA = fB := by
    rw [hpA] at hpB
    injection hpB
  have hmaA : mA = (store_file_result E self nameA stA
      (FileTypeDetector.detect E x) fA).1 := congrArg Prod.fst heqA
  have hmaB : mB = (store_file_result E self nameB stB
      (FileTypeDetector.detect E x) fB).1 := congrArg Prod.fst heqB
  have hcA : mA.checksum = E.sha256Hex fA := by
    rw [hmaA, store_file_result_meta]
  have hcB : mB.checksum = E.sha256Hex fB := by
    rw [hmaB, store_file_result_meta]
  rw [hcA, hcB, hff]

/-- Witness for C8: the same one-byte file stored under two names from
two different prior states records the same checksum. -/
theorem claim_C8_checksum_deterministic_witness :
    store_file extToy selfPlain "a" [5] emptyState =
        .ok (store_file_result extToy selfPlain "a" emptyState
          .Unknown [5]) ∧
      store_file extToy selfPlain "b" [5] { emptyState with ctr := 3 } =
        .ok (store_file_result extToy selfPlain "b"
          { emptyState with ctr := 3 } .Unknown [5]) ∧
      (store_file_result extToy selfPlain "a" emptyState
          .Unknown [5]).1.checksum =
        (store_file_result extToy selfPlain "b"
          { emptyState with ctr := 3 } .Unknown [5]).1.checksum := by
  have hA : store_file extToy selfPlain "a" [5] emptyState =
      .ok (store_file_result extToy selfPlain "a" emptyState
        .Unknown [5]) :=
    store_file_eq extToy selfPlain "a" [5] emptyState [5] rfl
  have hB : store_file extToy selfPlain "b" [5]
      { emptyState with ctr := 3 } =
      .ok (store_file_result extToy selfPlain "b"
        { emptyState with ctr := 3 } .Unknown [5]) :=
    store_file_eq extToy selfPlain "b" [5] { emptyState with ctr := 3 }
      [5] rfl
  exact ⟨hA, hB,
    claim_C8_checksum_deterministic extToy selfPlain "a" "b" [5]
      emptyState { emptyState with ctr := 3 } _ _ _ _ hA hB⟩

/-- The empty store whose `name_to_id.json` holds unparseable JSON. -/
def invalidIndexState : StorageState :=
  { emptyState with nameIndex := some .invalid }

/-- C10: when `name_to_id.json` exists but fails to parse, the next
successful `store_file` silently rewrites the index to a map holding
only the new name-to-id entry. -/
theorem claim_C10_corrupt_index_discarded (E : Ext) (self : DiskStorage)
    (name : String) (data : Bytes) (st : StorageState) (m : FileMetadata)
    (st2 : StorageState) (hidx : st.nameIndex = some .invalid)
    (hs : store_file E self name data st = .ok (m, st2)) :
    st2.nameIndex = some (.valid [(name, m.id)]) := by
  obtain ⟨final, hp, heq⟩ := store_file_inv E self name data st m st2 hs
  have hst : st2 = (store_file_result E self name st
      (FileTypeDetector.detect E data) final).2 := congrArg Prod.snd heq
  have hma : m = (store_file_result E self name st
      (FileTypeDetector.detect E data) final).1 := congrArg Prod.fst heq
  have hmid : m.id = st.ctr := by rw [hma, store_file_result_meta]
  rw [hst, store_file_result_nameIndex, hmid]
  simp [update_name_index, hidx]

/-- Witness for C10: storing over a corrupt index succeeds and leaves
exactly the one new entry. -/
theorem claim_C10_corrupt_index_discarded_witness :
    invalidIndexState.nameIndex = some .invalid ∧
      store_file extToy selfPlain "a" [7] invalidIndexState =
        .ok (store_file_result extToy selfPlain "a" invalidIndexState
          .Unknown [7]) ∧
      (store_file_result extToy selfPlain "a" invalidIndexState
          .Unknown [7]).2.nameIndex =
        some (.valid [("a", (store_file_result extToy selfPlain "a"
          invalidIndexState .Unknown [7]).1.id)]) := by
  have hs : store_file extToy selfPlain "a" [7] invalidIndexState =
      .ok (store_file_result extToy selfPlain "a" invalidIndexState
        .Unknown [7]) :=
    store_file_eq extToy selfPlain "a" [7] invalidIndexState [7] rfl
  exact ⟨rfl, hs,
    claim_C10_corrupt_index_discarded extToy selfPlain "a" [7]
      invalidIndexState _ _ rfl hs⟩

/-- The chunk-removal loop of `delete_file` touches only the chunks
directory. -/
theorem delete_chunks_fold_frame (id : Uuid) :
    ∀ (l : List ChunkId) (s : StorageState),
      ((l.foldl (fun s cid =>
          if is_chunk_used_by_others s cid id then s
          else { s with chunksDir := fsRemove s.chunksDir cid.val }) s).metadataDir =
          s.metadataDir) ∧
        ((l.foldl (fun s cid =>
          if is_chunk_used_by_others s cid id then s
          else { s with chunksDir := fsRemove s.chunksDir cid.val }) s).nameIndex =
          s.nameIndex) ∧
        ((l.foldl (fun s cid =>
          if is_chunk_used_by_others s cid id then s
          else { s with chunksDir := fsRemove s.chunksDir cid.val }) s).cacheState =
          s.cacheState) ∧
        ((l.foldl (fun s cid =>
          if is_chunk_used_by_others s cid id then s
          else { s with chunksDir := fsRemove s.chunksDir cid.val }) s).ctr =
          s.ctr) := by
  intro l
  induction l with
  | nil => intro s; exact ⟨rfl, rfl, rfl, rfl⟩
  | cons cid rest ih =>
    intro s
    rw [List.foldl_cons]
    by_cases hused : is_chunk_used_by_others s cid id
    · simp only [if_pos hused]
      exact ih s
    · simp only [if_neg hused]
      exact ih _

/-- The state a successful `delete_file` leaves behind, given the
metadata record it read. -/
def delete_file_result (self : DiskStorage) (id : Uuid)
    (st : StorageState) (metadata : FileMetadata) : StorageState :=
  let st1 := metadata.chunk_ids.foldl (fun s cid =>
    if is_chunk_used_by_others s cid id then s
    else { s with chunksDir := fsRemove s.chunksDir cid.val }) st
  let st2 := { st1 with metadataDir := fsRemove st1.metadataDir id }
  let st3 := cleanup_orphaned_chunks st2
  match self.cache with
  | some _ => { st3 with cacheState := cache_invalidate st3.cacheState id }
  | none => st3

theorem delete_file_eq (self : DiskStorage) (id : Uuid)
    (st : StorageState) (metadata : FileMetadata)
    (h : fsLookup st.metadataDir id = some metadata) :
    delete_file self id st = .ok (delete_file_result self id st metadata) := by
  simp only [delete_file, h]
  rfl

theorem delete_file_inv (self : DiskStorage) (id : Uuid)
    (st st2 : StorageState) (h : delete_file self id st = .ok st2) :
    ∃ metadata, fsLookup st.metadataDir id = some metadata ∧
      st2 = delete_file_result self id st metadata := by
  cases hl : fsLookup st.metadataDir id with
  | none =>
    simp only [delete_file, hl] at h
    cases h
  | some metadata =>
    rw [delete_file_eq self id st metadata hl] at h
    injection h with h2
    exact ⟨metadata, rfl, h2.symm⟩

/-- The metadata directory after `delete_file` is the prior one with
the record of `id` removed. -/
theorem delete_file_result_metadataDir (self : DiskStorage) (id : Uuid)
    (st : StorageState) (metadata : FileMetadata) :
    (delete_file_result self id st metadata).metadataDir =
      fsRemove st.metadataDir id := by
  obtain ⟨hmd, hni, hcs, hctr⟩ :=
    delete_chunks_fold_frame id metadata.chunk_ids st
  cases hc : self.cache with
  | none =>
    simp only [delete_file_result, cleanup_orphaned_chunks, hc]
    rw [hmd]
  | some cap =>
    simp only [delete_file_result, cleanup_orphaned_chunks, hc]
    rw [hmd]

/-- The chunks directory after `delete_file` is filtered to names
referenced by some surviving metadata record. -/
theorem delete_file_result_chunksDir (self : DiskStorage) (id : Uuid)
    (st : StorageState) (metadata : FileMetadata) :
    ∀ p ∈ (delete_file_result self id st metadata).chunksDir,
      ((fsRemove st.metadataDir id).flatMap
        (fun pr => pr.2.chunk_ids.map (fun c => c.val))).contains p.1 = true := by
  obtain ⟨hmd, hni, hcs, hctr⟩ :=
    delete_chunks_fold_frame id metadata.chunk_ids st
  intro p hp
  cases hc : self.cache with
  | none =>
    simp only [delete_file_result, cleanup_orphaned_chunks, hc, hmd] at hp
    exact (List.mem_filter.mp hp).2
  | some cap =>
    simp only [delete_file_result, cleanup_orphaned_chunks, hc, hmd] at hp
    exact (List.mem_filter.mp hp).2

/-- C4: after a successful `delete_file(id)`: `get_file(id)` fails with
NotFound; every chunk listed in the deleted metadata is either still
referenced by a surviving metadata record or absent from the chunks
directory; and no unreferenced chunk file remains (the orphan set is
empty). -/
theorem claim_C4_delete_invariants (E : Ext) (self : DiskStorage)
    (id : Uuid) (st st2 : StorageState)
    (h : delete_file self id st = .ok st2) :
    (get_file E self id st2 = .error (.NotFound (toString id))) ∧
      (∀ meta, fsLookup st.metadataDir id = some meta →
        ∀ cid ∈ meta.chunk_ids,
          (∃ pr ∈ st2.metadataDir, cid ∈ pr.2.chunk_ids) ∨
            fsLookup st2.chunksDir cid.val = none) ∧
      (∀ p ∈ st2.chunksDir, ∃ pr ∈ st2.metadataDir,
        p.1 ∈ pr.2.chunk_ids.map (fun c => c.val)) := by
  obtain ⟨metadata, hl, hst2⟩ := delete_file_inv self id st st2 h
  have hmd : st2.metadataDir = fsRemove st.metadataDir id := by
    rw [hst2, delete_file_result_metadataDir]
  have horphan : ∀ p ∈ st2.chunksDir, ∃ pr ∈ st2.metadataDir,
      p.1 ∈ pr.2.chunk_ids.map (fun c => c.val) := by
    intro p hp
    rw [hst2] at hp
    have hcont := delete_file_result_chunksDir self id st metadata p hp
    have hmem : p.1 ∈ (fsRemove st.metadataDir id).flatMap
        (fun pr => pr.2.chunk_ids.map (fun c => c.val)) := by
      simpa using hcont
    rw [← hmd] at hmem
    simpa using hmem
  refine ⟨?_, ?_, horphan⟩
  · have hnone : fsLookup st2.metadataDir id = none := by
      rw [hmd]
      exact fsLookup_fsRemove_self _ _
    simp only [get_file, hnone]
  · intro meta hmeta cid hcid
    cases hlu : fsLookup st2.chunksDir cid.val with
    | none => exact Or.inr rfl
    | some b =>
      left
      have hmemc := fsLookup_mem hlu
      obtain ⟨pr, hpr, hval⟩ := horphan (cid.val, b) hmemc
      refine ⟨pr, hpr, ?_⟩
      obtain ⟨c2, hc2, hveq⟩ := List.mem_map.mp hval
      have hcc : c2 = cid := by
        cases c2
        cases cid
        simpa using hveq
      rw [← hcc]
      exact hc2

/-- Concrete pre-delete state for the C4 witness: one stored file whose
single chunk is shared with no one. -/
def stDel : StorageState :=
  { metadataDir := [(0, ⟨0, "a", 1, 0, 0, "c", .Unknown, [⟨1⟩]⟩)],
    chunksDir := [(1, [9])], nameIndex := none, cacheState := [], ctr := 2 }

/-- Post-delete state for the C4 witness. -/
def stDelAfter : StorageState :=
  { metadataDir := [], chunksDir := [], nameIndex := none,
    cacheState := [], ctr := 2 }

/-- Witness for C4: deleting the only file removes its chunk, its
metadata, and leaves no orphans. -/
theorem claim_C4_delete_invariants_witness :
    delete_file selfPlain 0 stDel = .ok stDelAfter ∧
      ((get_file extToy selfPlain 0 stDelAfter =
          .error (.NotFound (toString (0 : Uuid)))) ∧
        (∀ meta, fsLookup stDel.metadataDir 0 = some meta →
          ∀ cid ∈ meta.chunk_ids,
            (∃ pr ∈ stDelAfter.metadataDir, cid ∈ pr.2.chunk_ids) ∨
              fsLookup stDelAfter.chunksDir cid.val = none) ∧
        (∀ p ∈ stDelAfter.chunksDir, ∃ pr ∈ stDelAfter.metadataDir,
          p.1 ∈ pr.2.chunk_ids.map (fun c => c.val))) := by
  have hdel : delete_file selfPlain 0 stDel = .ok stDelAfter := by decide
  exact ⟨hdel,
    claim_C4_delete_invariants extToy selfPlain 0 stDel stDelAfter hdel⟩

/-- Closed-form success of `store_file` when the transform output fits
in a single chunk. -/
theorem store_file_small_eval (E : Ext) (self : DiskStorage)
    (name : String) (data final : Bytes) (st : StorageState)
    (hp : process_file_by_type E self (FileTypeDetector.detect E data) data =
      .ok final)
    (hne : final ≠ []) (hlen : final.length ≤ DEFAULT_CHUNK_SIZE) :
    store_file E self name data st =
      .ok (⟨st.ctr, name, final.length, E.now, E.now, E.sha256Hex final,
          FileTypeDetector.detect E data, [⟨st.ctr + 1⟩]⟩,
        { metadataDir := fsWrite st.metadataDir st.ctr
            ⟨st.ctr, name, final.length, E.now, E.now, E.sha256Hex final,
              FileTypeDetector.detect E data, [⟨st.ctr + 1⟩]⟩,
          chunksDir := fsWrite st.chunksDir (st.ctr + 1) final,
          nameIndex := (update_name_index name st.ctr st).nameIndex,
          cacheState := match self.cache with
            | some cap => lru_put cap st.cacheState st.ctr final
            | none => st.cacheState,
          ctr := st.ctr + 2 }) := by
  rw [store_file_eq E self name data st final hp]
  have hch := chunk_data_single E DEFAULT_CHUNK_SIZE default_chunk_size_pos
    (st.ctr + 1) final hne hlen
  cases hc : self.cache with
  | none =>
    simp only [store_file_result, hch, hc, store_chunks, fsWrite,
      update_name_index, calculate_checksum]
  | some cap =>
    simp only [store_file_result, hch, hc, store_chunks, fsWrite,
      update_name_index, calculate_checksum, lru_put]

/-- Metadata record of the C1 store: a PDF-typed file under
compression. -/
def pdfMeta : FileMetadata :=
  ⟨0, "doc.pdf", 5, 0, 0, extPdf.sha256Hex [0, 37, 80, 68, 70],
    .Document .Pdf, [⟨1⟩]⟩

/-- Store state after the C1 store. -/
def pdfState : StorageState :=
  { metadataDir := [(0, pdfMeta)],
    chunksDir := [(1, [0, 37, 80, 68, 70])],
    nameIndex := some (.valid [("doc.pdf", 0)]),
    cacheState := [], ctr := 2 }

/-- C1: the store/get round trip is broken for Document-typed files
when a transform stage is enabled: `deprocess_file_by_type` re-runs the
forward pipeline (`process_data`) for Document instead of the inverse,
so `get_file` returns the doubly-processed bytes, not the stored
input.  Here the %PDF-magic input [37, 80, 68, 70] under an enabled
compression stage comes back as [0, 0, 37, 80, 68, 70]. -/
theorem claim_C1_document_roundtrip_broken :
    ∃ m st1 st2,
      store_file extPdf selfCompr "doc.pdf" [37, 80, 68, 70] emptyState =
          .ok (m, st1) ∧
        m.file_type = .Document .Pdf ∧
        get_file extPdf selfCompr m.id st1 =
          .ok ([0, 0, 37, 80, 68, 70], st2) ∧
        ¬([0, 0, 37, 80, 68, 70] = ([37, 80, 68, 70] : Bytes)) := by
  have hstore : store_file extPdf selfCompr "doc.pdf" [37, 80, 68, 70]
      emptyState = .ok (pdfMeta, pdfState) := by
    rw [store_file_small_eval extPdf selfCompr "doc.pdf" [37, 80, 68, 70]
      [0, 37, 80, 68, 70] emptyState (by decide) (by decide) (by decide)]
    decide
  have hget : get_file extPdf selfCompr pdfMeta.id pdfState =
      .ok ([0, 0, 37, 80, 68, 70], pdfState) := by decide
  exact ⟨pdfMeta, pdfState, pdfState, hstore, by decide, hget, by decide⟩

/-- Metadata record of the C2 store: an Unknown-typed file under
compression with a cache configured. -/
def c2Meta : FileMetadata :=
  ⟨0, "f.bin", 2, 0, 0, extToy.sha256Hex [0, 120], .Unknown, [⟨1⟩]⟩

/-- Store state after the C2 store. -/
def c2State : StorageState :=
  { metadataDir := [(0, c2Meta)],
    chunksDir := [(1, [0, 120])],
    nameIndex := some (.valid [("f.bin", 0)]),
    cacheState := [(0, [0, 120])], ctr := 2 }

/-- C2: with a cache configured and compression enabled, the cache
entry written by `store_file` holds the post-transform (compressed)
bytes, not the decoded bytes that `get_file` returns: storing [120]
caches [0, 120] while `get_file` returns [120]. -/
theorem claim_C2_cache_holds_encoded_bytes :
    ∃ m st1 st2,
      store_file extToy selfComprCache "f.bin" [120] emptyState =
          .ok (m, st1) ∧
        fsLookup st1.cacheState m.id = some [0, 120] ∧
        get_file extToy selfComprCache m.id st1 = .ok ([120], st2) ∧
        ¬(([0, 120] : Bytes) = [120]) := by
  have hstore : store_file extToy selfComprCache "f.bin" [120]
      emptyState = .ok (c2Meta, c2State) := by
    rw [store_file_small_eval extToy selfComprCache "f.bin" [120]
      [0, 120] emptyState (by decide) (by decide) (by decide)]
    decide
  have hget : get_file extToy selfComprCache c2Meta.id c2State =
      .ok ([120], { c2State with cacheState := [(0, [120])] }) := by decide
  exact ⟨c2Meta, c2State, { c2State with cacheState := [(0, [120])] },
    hstore, by decide, hget, by decide⟩

/-- A state whose configured cache holds decoded bytes for id 5 while
no metadata record exists on disk. -/
def cachedOnlyState : StorageState :=
  { metadataDir := [], chunksDir := [], nameIndex := none,
    cacheState := [(5, [1, 2, 3])], ctr := 9 }

/-- C3: `get_file` never consults the cache: with a cache configured
and holding the requested id (so that `CacheManager::get` would return
the bytes and promote the entry), `get_file` still goes to disk and
fails with NotFound because no metadata file exists. -/
theorem claim_C3_get_never_reads_cache :
    selfCacheOnly.cache = some 10 ∧
      fsLookup cachedOnlyState.cacheState 5 = some [1, 2, 3] ∧
      cache_get cachedOnlyState.cacheState 5 =
        (some [1, 2, 3], [(5, [1, 2, 3])]) ∧
      get_file extToy selfCacheOnly 5 cachedOnlyState =
        .error (.NotFound (toString (5 : Uuid))) := by
  decide

theorem except_map_fst_ok {ε α β : Type} (e : Except ε (α × β)) (v : α)
    (h : e.map Prod.fst = .ok v) : ∃ p, e = .ok p ∧ p.1 = v := by
  cases e with
  | error er => simp [Except.map] at h
  | ok p =>
    simp only [Except.map] at h
    injection h with h2
    exact ⟨p, rfl, h2⟩

/-- C6: storing a second file under the same name points the name
index at the second id, while the first file's metadata record and all
of its chunk files are unchanged, and the first file is still
retrievable by its id (get returns the same bytes as before the second
store). -/
theorem claim_C6_same_name_overwrite (E : Ext) (self : DiskStorage)
    (name : String) (x y : Bytes) (st st1 st2 : StorageState)
    (m1 m2 : FileMetadata) (hg : GzipRoundTrip E) (ha : AesRoundTrip E)
    (hcT : CompressTotal E) (heT : EncryptTotal E)
    (h1 : store_file E self name x st = .ok (m1, st1))
    (h2 : store_file E self name y st1 = .ok (m2, st2)) :
    indexLookup st2 name = some m2.id ∧
      fsLookup st2.metadataDir m1.id = some m1 ∧
      (∀ cid ∈ m1.chunk_ids,
        fsLookup st2.chunksDir cid.val = fsLookup st1.chunksDir cid.val) ∧
      (∃ b st3, get_file E self m1.id st2 = .ok (b, st3) ∧
        (get_file E self m1.id st1).map Prod.fst = .ok b) := by
  obtain ⟨f1, hp1, heq1⟩ := store_file_inv E self name x st m1 st1 h1
  obtain ⟨f2, hp2, heq2⟩ := store_file_inv E self name y st1 m2 st2 h2
  have hm1 : m1 = (store_file_result E self name st
      (FileTypeDetector.detect E x) f1).1 := congrArg Prod.fst heq1
  have hs1 : st1 = (store_file_result E self name st
      (FileTypeDetector.detect E x) f1).2 := congrArg Prod.snd heq1
  have hm2 : m2 = (store_file_result E self name st1
      (FileTypeDetector.detect E y) f2).1 := congrArg Prod.fst heq2
  have hs2 : st2 = (store_file_result E self name st1
      (FileTypeDetector.detect E y) f2).2 := congrArg Prod.snd heq2
  have hid1 : m1.id = st.ctr := by rw [hm1, store_file_result_meta]
  have hid2 : m2.id = st1.ctr := by rw [hm2, store_file_result_meta]
  have hctr1 : st1.ctr = st.ctr + 1 + ((chunk_data E DEFAULT_CHUNK_SIZE
      default_chunk_size_pos (st.ctr + 1) f1).1).length := by
    rw [hs1, store_file_result_ctr]
  have hbounds := store_file_result_chunk_id_bounds E self name st
    (FileTypeDetector.detect E x) f1
  have hb1 : ∀ cid ∈ m1.chunk_ids, cid.val < st1.ctr := by
    intro cid hcid
    rw [hm1] at hcid
    have hb := hbounds cid hcid
    rw [hs1]
    exact hb.2
  -- (i) the name index points at the second id
  have hni : st2.nameIndex = (update_name_index name st1.ctr st1).nameIndex := by
    rw [hs2, store_file_result_nameIndex]
  have hi : indexLookup st2 name = some m2.id := by
    simp only [indexLookup, hni, update_name_index, List.find?_cons,
      beq_self_eq_true]
    rw [hid2]
    rfl
  -- (ii) the first metadata record is unchanged
  have hmd21 : fsLookup st2.metadataDir m1.id =
      fsLookup st1.metadataDir m1.id := by
    rw [hs2, store_file_result_metadataDir]
    refine fsLookup_fsWrite_ne _ _ _ _ ?_
    rw [hid1, hctr1]
    exact Nat.ne_of_lt (by omega)
  have hmd1 : fsLookup st1.metadataDir m1.id = some m1 := by
    rw [hs1, store_file_result_metadataDir, hid1, ← hm1]
    exact fsLookup_fsWrite_self _ _ _
  -- (iii) the first file's chunk files are unchanged
  have hch : ∀ cid ∈ m1.chunk_ids,
      fsLookup st2.chunksDir cid.val = fsLookup st1.chunksDir cid.val := by
    intro cid hcid
    rw [hs2]
    exact store_file_result_lookup_old E self name st1
      (FileTypeDetector.detect E y) f2 cid.val
      (Nat.lt_succ_of_lt (hb1 cid hcid))
  -- (iv) the first file is still retrievable by id with the same bytes
  obtain ⟨out, st3, hget1, _⟩ := get_file_after_store E self name x st m1
    st1 hg ha hcT heT h1
  have hcongr : (get_file E self m1.id st2).map Prod.fst =
      (get_file E self m1.id st1).map Prod.fst := by
    refine get_file_value_congr E self m1.id st1 st2 hmd21 ?_
    intro meta hmeta cid hcid
    rw [hmd1] at hmeta
    injection hmeta with hmm
    subst hmm
    exact hch cid hcid
  rw [hget1] at hcongr
  simp only [Except.map] at hcongr
  obtain ⟨p, hpo, hpv⟩ := except_map_fst_ok _ _ hcongr
  obtain ⟨pa, pb⟩ := p
  simp only at hpv
  subst hpv
  refine ⟨hi, hmd21.trans hmd1, hch, _, pb, hpo, ?_⟩
  rw [hget1]
  rfl

/-- First store of the C6 witness. -/
def w1Meta : FileMetadata :=
  ⟨0, "a", 1, 0, 0, extToy.sha256Hex [3], .Unknown, [⟨1⟩]⟩

/-- State after the first C6 store. -/
def w1State : StorageState :=
  { metadataDir := [(0, w1Meta)], chunksDir := [(1, [3])],
    nameIndex := some (.valid [("a", 0)]), cacheState := [], ctr := 2 }

/-- Second store of the C6 witness, same name. -/
def w2Meta : FileMetadata :=
  ⟨2, "a", 1, 0, 0, extToy.sha256Hex [4], .Unknown, [⟨3⟩]⟩

/-- State after the second C6 store. -/
def w2State : StorageState :=
  { metadataDir := [(2, w2Meta), (0, w1Meta)],
    chunksDir := [(3, [4]), (1, [3])],
    nameIndex := some (.valid [("a", 2)]), cacheState := [], ctr := 4 }

/-- Witness for C6: two stores under the name "a". -/
theorem claim_C6_same_name_overwrite_witness :
    store_file extToy selfPlain "a" [3] emptyState = .ok (w1Meta, w1State) ∧
      store_file extToy selfPlain "a" [4] w1State = .ok (w2Meta, w2State) ∧
      (indexLookup w2State "a" = some w2Meta.id ∧
        fsLookup w2State.metadataDir w1Meta.id = some w1Meta ∧
        (∀ cid ∈ w1Meta.chunk_ids,
          fsLookup w2State.chunksDir cid.val =
            fsLookup w1State.chunksDir cid.val) ∧
        (∃ b st3,
          get_file extToy selfPlain w1Meta.id w2State = .ok (b, st3) ∧
            (get_file extToy selfPlain w1Meta.id w1State).map Prod.fst =
              .ok b)) := by
  have h1 : store_file extToy selfPlain "a" [3] emptyState =
      .ok (w1Meta, w1State) := by
    rw [store_file_small_eval extToy selfPlain "a" [3] [3] emptyState
      (by decide) (by decide) (by decide)]
    decide
  have h2 : store_file extToy selfPlain "a" [4] w1State =
      .ok (w2Meta, w2State) := by
    rw [store_file_small_eval extToy selfPlain "a" [4] [4] w1State
      (by decide) (by decide) (by decide)]
    decide
  exact ⟨h1, h2,
    claim_C6_same_name_overwrite extToy selfPlain "a" [3] [4] emptyState
      w1State w2State w1Meta w2Meta extToy_gzip_rt extToy_aes_rt
      extToy_comp_total extToy_enc_total h1 h2⟩

end CloudStorage
